import Mathlib

/-! Verification of `pkg/errorsx`.

A shallow embedding of the structured error model of `pkg/errorsx`
(`errorsx.go`, `code.go`) together with the parts of its dependencies that the
package calls: `errors.As`, `fmt.Sprintf`, the gRPC `status` package and the
kratos HTTP/gRPC code tables.

Modelling conventions.

* A Go string is a sequence of bytes.  It is modelled by a `String` whose characters
  stand for the bytes: the character with code `b` is the byte `b` (so every ASCII
  literal is itself, and `"\xff"` is the single byte `0xff`); characters with a code
  above 255 stand for nothing.  `validUTF8` is the check of `utf8.ValidString` on those
  bytes.
* A Go `map[string]string` is an association list kept in ascending key order
  by `GoMap.put`; a nil map is `none`, so `Option GoMap` is the type of the
  `Metadata` field.
* `*ErrorX` values are addresses into an explicit `Heap`; the methods that
  mutate their receiver take a heap and return the new heap together with the
  returned pointer.
* A Go `error` interface value is `Option GoError`, `none` being the nil
  interface.  An interface may hold a nil `*ErrorX` (`GoError.errorxNil`).
  Errors form trees: `Unwrap() error` (`wrap`) and `Unwrap() []error` (`join`).
  Error types with their own `As` method are not modelled.
* A result `none` of `Is`, `Code`, `Reason`, `FromError`, `statusFromError` and
  `GoError.Error` means that the call does not return: a field is read, or a
  method reading one is called, through a nil pointer.
* Maps are values of the record that holds them: two records sharing one map
  are not modelled.
* The HTTP/gRPC code lookups are a parameter (`CodeTable`); `kratos` is the
  table of the library the package imports.  The behaviour of the gRPC
  `status` package follows the library: `WithDetails` refuses a status with
  code `OK` and fails when a detail cannot be serialised (a string that is not
  valid UTF-8), `Err` is nil for a status with code `OK`, `FromError` accepts
  wrapped status errors, and detail records are stored serialised.
-/

namespace Errorsx

/-! ## Go maps -/

/-- Contents of a Go `map[string]string`: key/value entries. -/
abbrev GoMap := List (String × String)

/-- Order in which `fmt` prints map keys: lexicographic on the bytes. -/
def keyLt (a b : String) : Prop := a.data < b.data

instance keyLtDecidable (a b : String) : Decidable (keyLt a b) :=
  inferInstanceAs (Decidable (a.data < b.data))

/-- Map assignment `m[k] = v`: overwrite the entry of `k` when there is one, otherwise
add the entry at its place in key order. -/
def GoMap.put (k v : String) : GoMap → GoMap
  | [] => [(k, v)]
  | (k', v') :: rest =>
    if k = k' then (k, v) :: rest
    else if keyLt k k' then (k, v) :: (k', v') :: rest
    else (k', v') :: GoMap.put k v rest

/-- Map read `m[k]` in its two-result form: the value of the first entry of `k`. -/
def GoMap.get? (m : GoMap) (k : String) : Option String :=
  match m with
  | [] => none
  | (k', v') :: rest => if k = k' then some v' else GoMap.get? rest k

/-- Keys of a map. -/
def GoMap.keys (m : GoMap) : List String := m.map Prod.fst

/-- Well-formed maps: keys strictly ascending, hence unique. -/
def GoMap.WF (m : GoMap) : Prop := m.Pairwise (fun a b => keyLt a.1 b.1)

/-- Keys of a possibly nil map (a nil map has no keys). -/
def metadataKeys (md : Option GoMap) : List String := (md.getD []).keys

/-! ## `fmt.Sprintf` -/

/-- Operand of a formatting call: the three Go types the package formats. -/
inductive Arg where
  | int (n : Int)
  | str (s : String)
  | map (m : Option GoMap)

/-- Form printed by `fmt` for a verb that is not defined for the operand. -/
def badVerb (verb : Char) (ty val : String) : String :=
  "%!" ++ verb.toString ++ "(" ++ ty ++ "=" ++ val ++ ")"

/-- A string operand under `%s` or `%v` prints as itself. -/
def fmtString (verb : Char) (s : String) : String :=
  if verb = 's' ∨ verb = 'v' then s else badVerb verb "string" s

/-- An integer operand under `%d` or `%v` prints in decimal. -/
def fmtInt (verb : Char) (n : Int) : String :=
  if verb = 'd' ∨ verb = 'v' then toString n else badVerb verb "int" (toString n)

/-- A map prints as `map[k1:v1 k2:v2]`, the verb applied to every key and value;
a nil map prints as `map[]`. -/
def fmtMap (verb : Char) (m : Option GoMap) : String :=
  "map[" ++ " ".intercalate
    ((m.getD []).map (fun kv => fmtString verb kv.1 ++ ":" ++ fmtString verb kv.2)) ++ "]"

/-- One operand under one verb. -/
def fmtArg (verb : Char) : Arg → String
  | .int n => fmtInt verb n
  | .str s => fmtString verb s
  | .map m => fmtMap verb m

/-- Go type name of an operand, as printed in the `EXTRA` form. -/
def Arg.typeName : Arg → String
  | .int _ => "int"
  | .str _ => "string"
  | .map _ => "map[string]string"

/-- Scan of the format string: literal characters are copied, `%%` prints a percent
sign, any other verb consumes the next operand (`%!v(MISSING)` when none is left), a
trailing `%` prints `%!(NOVERB)`.  Returns the text and the operands left over. -/
def sprintfAux : List Char → List Arg → String × List Arg
  | [], args => ("", args)
  | ['%'], args => ("%!(NOVERB)", args)
  | '%' :: '%' :: rest, args =>
    let r := sprintfAux rest args
    ("%" ++ r.1, r.2)
  | '%' :: verb :: rest, [] =>
    let r := sprintfAux rest []
    ("%!" ++ verb.toString ++ "(MISSING)" ++ r.1, r.2)
  | '%' :: verb :: rest, a :: args =>
    let r := sprintfAux rest args
    (fmtArg verb a ++ r.1, r.2)
  | c :: rest, args =>
    let r := sprintfAux rest args
    (c.toString ++ r.1, r.2)

/-- Model of `fmt.Sprintf` for the verbs `%s`, `%d`, `%v` and `%%` without flags, width
or precision, on string, int and `map[string]string` operands.  Operands left over are
reported in the `%!(EXTRA ...)` form.  Other verbs are outside the modelled fragment
(they are rendered in the bad-verb form). -/
def Sprintf (format : String) (args : List Arg) : String :=
  let r := sprintfAux format.data args
  match r.2 with
  | [] => r.1
  | extra =>
    r.1 ++ "%!(EXTRA " ++ ", ".intercalate (extra.map (fun a => a.typeName ++ "=" ++ fmtArg 'v' a))
      ++ ")"

/-! ## The `ErrorX` record and the heap -/

/-- Record `ErrorX` of `errorsx.go`. -/
structure ErrorX where
  Code : Int
  Reason : String
  Message : String
  Metadata : Option GoMap
  deriving DecidableEq

/-- Address of an `ErrorX` record. -/
abbrev Ptr := Nat

/-- Store of `ErrorX` records; `next` is the first address not yet allocated. -/
structure Heap where
  cells : Ptr → ErrorX
  next : Ptr

/-- Assignment to the record at address `p`. -/
def Heap.write (h : Heap) (p : Ptr) (e : ErrorX) : Heap :=
  { cells := fun q => if q = p then e else h.cells q, next := h.next }

/-- Allocation `&ErrorX{...}` of a new record. -/
def Heap.alloc (h : Heap) (e : ErrorX) : Heap × Ptr :=
  ({ cells := fun q => if q = h.next then e else h.cells q, next := h.next + 1 }, h.next)

/-! ## Catalog (`code.go`) -/

/-- Constant `http.StatusOK`. -/
def StatusOK : Int := 200

/-- Catalog entry `OK`. -/
def OK : ErrorX :=
  { Code := 200, Reason := "", Message := "", Metadata := none }

/-- Catalog entry `ErrInternal`.  The package never assigns `Code` or `Reason` of an
existing record, so reads of `ErrInternal.Code` and `ErrInternal.Reason` are reads of
these constants. -/
def ErrInternal : ErrorX :=
  { Code := 500, Reason := "InternalError", Message := "Internal server error.",
    Metadata := none }

/-- Catalog entry `ErrNotFound`. -/
def ErrNotFound : ErrorX :=
  { Code := 404, Reason := "NotFound", Message := "Resource not found.", Metadata := none }

/-- Catalog entry `ErrBind`. -/
def ErrBind : ErrorX :=
  { Code := 400, Reason := "BindError",
    Message := "Error occurred while binding the request body to the struct.",
    Metadata := none }

/-- Catalog entry `ErrInvalidArgument`. -/
def ErrInvalidArgument : ErrorX :=
  { Code := 400, Reason := "InvalidArgument", Message := "Argument verification failed.",
    Metadata := none }

/-- Catalog entry `ErrUnauthenticated`. -/
def ErrUnauthenticated : ErrorX :=
  { Code := 401, Reason := "Unauthenticated", Message := "Unauthenticated.", Metadata := none }

/-- Catalog entry `ErrPermissionDenied`. -/
def ErrPermissionDenied : ErrorX :=
  { Code := 403, Reason := "PermissionDenied",
    Message := "Permission denied. Access to the requested resource is forbidden.",
    Metadata := none }

/-- Catalog entry `ErrOperationFailed`. -/
def ErrOperationFailed : ErrorX :=
  { Code := 409, Reason := "OperationFailed",
    Message := "The requested operation has failed. Please try again later.",
    Metadata := none }

/-! ## Code tables (`github.com/go-kratos/kratos/v2/transport/http/status`) -/

/-- The two lookups `httpstatus.ToGRPCCode` and `httpstatus.FromGRPCCode` between HTTP
status codes and gRPC codes.  The package imports them; the embedding takes them as a
parameter. -/
structure CodeTable where
  ToGRPCCode : Int → Nat
  FromGRPCCode : Nat → Int

/-- Lookup `ToGRPCCode` of kratos v2: its `switch`, with default `codes.Unknown`. -/
def kratosToGRPCCode (code : Int) : Nat :=
  if code = 200 then 0
  else if code = 400 then 3
  else if code = 401 then 16
  else if code = 403 then 7
  else if code = 404 then 5
  else if code = 409 then 10
  else if code = 429 then 8
  else if code = 500 then 13
  else if code = 501 then 12
  else if code = 503 then 14
  else if code = 504 then 4
  else if code = 499 then 1
  else 2

/-- Lookup `FromGRPCCode` of kratos v2: its `switch`, with default
`http.StatusInternalServerError`. -/
def kratosFromGRPCCode (code : Nat) : Int :=
  match code with
  | 0 => 200
  | 1 => 499
  | 2 => 500
  | 3 => 400
  | 4 => 504
  | 5 => 404
  | 6 => 409
  | 7 => 403
  | 8 => 429
  | 9 => 400
  | 10 => 409
  | 11 => 400
  | 12 => 501
  | 13 => 500
  | 14 => 503
  | 15 => 500
  | 16 => 401
  | _ => 500

/-- The tables of kratos v2. -/
def kratos : CodeTable :=
  { ToGRPCCode := kratosToGRPCCode, FromGRPCCode := kratosFromGRPCCode }

/-! ## gRPC status (`google.golang.org/grpc/status`, `codes`, `errdetails`) -/

/-- Code `codes.OK`. -/
def codesOK : Nat := 0

/-- Code `codes.Unknown`. -/
def codesUnknown : Nat := 2

/-- Method `String` of `codes.Code`. -/
def codeString (c : Nat) : String :=
  match c with
  | 0 => "OK"
  | 1 => "Canceled"
  | 2 => "Unknown"
  | 3 => "InvalidArgument"
  | 4 => "DeadlineExceeded"
  | 5 => "NotFound"
  | 6 => "AlreadyExists"
  | 7 => "PermissionDenied"
  | 8 => "ResourceExhausted"
  | 9 => "FailedPrecondition"
  | 10 => "Aborted"
  | 11 => "OutOfRange"
  | 12 => "Unimplemented"
  | 13 => "Internal"
  | 14 => "Unavailable"
  | 15 => "DataLoss"
  | 16 => "Unauthenticated"
  | n => "Code(" ++ toString n ++ ")"

/-- Continuation byte of a UTF-8 sequence. -/
def isCont (b : Nat) : Bool := decide (128 ≤ b) && decide (b ≤ 191)

/-- Check `utf8.Valid` on a list of bytes: ASCII bytes, and the well-formed sequences of
two, three and four bytes (no overlong form, no surrogate, nothing above `U+10FFFF`). -/
def validUTF8Bytes : List Nat → Bool
  | [] => true
  | b :: rest =>
    if b < 128 then validUTF8Bytes rest
    else if 194 ≤ b ∧ b ≤ 223 then
      match rest with
      | c1 :: rest1 => isCont c1 && validUTF8Bytes rest1
      | _ => false
    else if 224 ≤ b ∧ b ≤ 239 then
      match rest with
      | c1 :: c2 :: rest2 =>
        decide (if b = 224 then 160 ≤ c1 ∧ c1 ≤ 191 else if b = 237 then 128 ≤ c1 ∧ c1 ≤ 159
          else 128 ≤ c1 ∧ c1 ≤ 191) && isCont c2 && validUTF8Bytes rest2
      | _ => false
    else if 240 ≤ b ∧ b ≤ 244 then
      match rest with
      | c1 :: c2 :: c3 :: rest3 =>
        decide (if b = 240 then 144 ≤ c1 ∧ c1 ≤ 191 else if b = 244 then 128 ≤ c1 ∧ c1 ≤ 143
          else 128 ≤ c1 ∧ c1 ≤ 191) && isCont c2 && isCont c3 && validUTF8Bytes rest3
      | _ => false
    else false

/-- Check `utf8.ValidString` on a Go string. -/
def validUTF8 (s : String) : Bool := validUTF8Bytes (s.data.map Char.toNat)

/-- Every key and value of a possibly nil map is valid UTF-8. -/
def validMetadata (md : Option GoMap) : Bool :=
  (md.getD []).all (fun kv => validUTF8 kv.1 && validUTF8 kv.2)

/-- A detail attachment of a status, as it is stored (serialised): either a record that
deserialises to an `errdetails.ErrorInfo` with this reason and these metadata entries,
or any other record (of another kind, or one that cannot be deserialised). -/
inductive Detail where
  | errorInfo (reason : String) (metadata : GoMap)
  | other (typeUrl : String)
  deriving DecidableEq

/-- Whether a detail attachment is an `ErrorInfo` record. -/
def Detail.isErrorInfo : Detail → Bool
  | .errorInfo _ _ => true
  | .other _ => false

/-- A non-nil `*status.Status`: code, description and detail attachments. -/
structure Status where
  code : Nat
  message : String
  details : List Detail
  deriving DecidableEq

/-- Constructor `status.New(c, msg)`. -/
def statusNew (c : Nat) (msg : String) : Status :=
  { code := c, message := msg, details := [] }

/-- Message `errdetails.ErrorInfo` as a Go value; its field `Domain` is never set by the
package. -/
structure ErrorInfo where
  Reason : String
  Metadata : Option GoMap

/-- Serialisation `anypb.New` of an `ErrorInfo`.  It fails (`none`) when the reason or a
key or value of the metadata is not valid UTF-8; a nil map and an empty map both
serialise to no entries. -/
def marshalErrorInfo (m : ErrorInfo) : Option Detail :=
  if validUTF8 m.Reason && validMetadata m.Metadata then
    some (.errorInfo m.Reason (m.Metadata.getD []))
  else none

/-- Serialisation of the arguments of `WithDetails`, in order, up to the first failure. -/
def marshalAll : List ErrorInfo → Option (List Detail)
  | [] => some []
  | m :: rest =>
    match marshalErrorInfo m with
    | none => none
    | some d =>
      match marshalAll rest with
      | none => none
      | some ds => some (d :: ds)

/-- Field `Metadata` of a deserialised `ErrorInfo`: the map is allocated when the first
entry is read, so a record without entries yields a nil map. -/
def decodeMetadata (entries : GoMap) : Option GoMap :=
  if entries = [] then none else some entries

/-- Method `(*Status).WithDetails`: a status with code `OK` takes no details, and a
detail that cannot be serialised is refused; the result is then the nil status (`none`)
and an error.  Otherwise the serialised details are appended. -/
def WithDetails (s : Status) (details : List ErrorInfo) : Option Status :=
  if s.code = codesOK then none
  else
    match marshalAll details with
    | none => none
    | some ds => some { code := s.code, message := s.message, details := s.details ++ ds }

/-! ## Go errors -/

mutual
/-- Values of the `error` interface, as trees: a pointer to an `ErrorX`, a nil `*ErrorX`
held in a non-nil interface, a gRPC status error (`*status.Error`), an error of any
other type with its text, an error with its text and the error its `Unwrap() error`
returns, and an error with its text and the errors its `Unwrap() []error` returns. -/
inductive GoError where
  | errorx (p : Ptr)
  | errorxNil
  | status (s : Status)
  | plain (text : String)
  | wrap (text : String) (inner : GoError)
  | join (text : String) (errs : GoErrors)
/-- Lists of non-nil errors. -/
inductive GoErrors where
  | nil
  | cons (head : GoError) (tail : GoErrors)
end

mutual
/-- Call `errors.As(err, &errx)` for `errx` of type `*ErrorX`: the first error whose type
is `*ErrorX` in the depth-first traversal of the tree, and the pointer it holds (the
inner `none` for a nil pointer). -/
def errorsAs : GoError → Option (Option Ptr)
  | .errorx p => some (some p)
  | .errorxNil => some none
  | .status _ => none
  | .plain _ => none
  | .wrap _ inner => errorsAs inner
  | .join _ errs => errorsAsList errs
/-- The traversal of `errors.As` over the errors of an `Unwrap() []error`, in order. -/
def errorsAsList : GoErrors → Option (Option Ptr)
  | .nil => none
  | .cons e rest =>
    match errorsAs e with
    | some r => some r
    | none => errorsAsList rest
end

mutual
/-- The tree of `err` contains an error of type `*ErrorX` holding the pointer `p` (`none`
for the nil pointer). -/
def chainContains : GoError → Option Ptr → Prop
  | .errorx q, p => p = some q
  | .errorxNil, p => p = none
  | .status _, _ => False
  | .plain _, _ => False
  | .wrap _ inner, p => chainContains inner p
  | .join _ errs, p => chainContainsList errs p
/-- One of the errors of the list contains an error of type `*ErrorX` holding `p`. -/
def chainContainsList : GoErrors → Option Ptr → Prop
  | .nil, _ => False
  | .cons e rest, p => chainContains e p ∨ chainContainsList rest p
end

/-- The error is a linear chain: no error of the tree has an `Unwrap() []error`. -/
def GoError.isChain : GoError → Bool
  | .errorx _ => true
  | .errorxNil => true
  | .status _ => true
  | .plain _ => true
  | .wrap _ inner => inner.isChain
  | .join _ _ => false

/-! ## Methods of `ErrorX` (`errorsx.go`) -/

/-- Function `New`. -/
def New (h : Heap) (code : Int) (reason : String) (format : String) (args : List Arg) :
    Heap × Ptr :=
  h.alloc { Code := code, Reason := reason, Message := Sprintf format args, Metadata := none }

/-- Method `Error`. -/
def ErrorX.Error (err : ErrorX) : String :=
  Sprintf "error: code = %d reason = %s message = %s metadata = %v"
    [.int err.Code, .str err.Reason, .str err.Message, .map err.Metadata]

/-- Method `WithMessage`: assigns `Message` and returns the receiver. -/
def WithMessage (h : Heap) (err : Ptr) (format : String) (args : List Arg) : Heap × Ptr :=
  (h.write err { h.cells err with Message := Sprintf format args }, err)

/-- Method `WithMetadata`: assigns `Metadata` and returns the receiver. -/
def WithMetadata (h : Heap) (err : Ptr) (md : Option GoMap) : Heap × Ptr :=
  (h.write err { h.cells err with Metadata := md }, err)

/-- The loop `for i := 0; i < len(kvs); i += 2` of `KV`, at index `i` with the map `m`.
Every iteration takes one unit of `fuel`. -/
def kvLoop (kvs : List String) : Nat → Nat → GoMap → GoMap
  | 0, _, m => m
  | fuel + 1, i, m =>
    if i < kvs.length then
      kvLoop kvs fuel (i + 2)
        (if i + 1 < kvs.length then GoMap.put (kvs.getD i "") (kvs.getD (i + 1) "") m else m)
    else m

/-- Method `KV`: a nil `Metadata` is first replaced by an empty map, then the loop runs
(`len(kvs)` units of fuel are more than its number of iterations); returns the
receiver. -/
def KV (h : Heap) (err : Ptr) (kvs : List String) : Heap × Ptr :=
  let md : GoMap :=
    match (h.cells err).Metadata with
    | none => []
    | some m => m
  (h.write err { h.cells err with Metadata := some (kvLoop kvs kvs.length 0 md) }, err)

/-- Method `GRPCStatus`: the error of `WithDetails` is discarded and its status
returned, `none` being the nil `*status.Status`. -/
def GRPCStatus (T : CodeTable) (err : ErrorX) : Option Status :=
  WithDetails (statusNew (T.ToGRPCCode err.Code) err.Message)
    [{ Reason := err.Reason, Metadata := err.Metadata }]

/-- Method `WithRequestID`. -/
def WithRequestID (h : Heap) (err : Ptr) (requestID : String) : Heap × Ptr :=
  KV h err ["X-Request-ID", requestID]

/-- Method `Is`.  When `errors.As` stores a nil pointer in `errx`, reading `errx.Code`
does not return (`none`). -/
def Is (h : Heap) (err : Ptr) (target : Option GoError) : Option Bool :=
  match target with
  | none => some false
  | some t =>
    match errorsAs t with
    | some (some errx) =>
      some (decide ((h.cells errx).Code = (h.cells err).Code) &&
        decide ((h.cells errx).Reason = (h.cells err).Reason))
    | some none => none
    | none => some false

/-- Method `Error` of the `error` interface: the rendering of an `ErrorX` (which does not
return through a nil pointer), the text `rpc error: code = <code> desc = <description>`
of a gRPC status error, and the text of any other error. -/
def GoError.Error (h : Heap) : GoError → Option String
  | .errorx p => some (h.cells p).Error
  | .errorxNil => none
  | .status s => some ("rpc error: code = " ++ codeString s.code ++ " desc = " ++ s.message)
  | .plain text => some text
  | .wrap text _ => some text
  | .join text _ => some text

/-- Method `(*Status).Err`: nil for the nil status and for a status with code `OK`,
otherwise the gRPC status error holding the status. -/
def statusErr (s : Option Status) : Option GoError :=
  match s with
  | none => none
  | some st => if st.code = codesOK then none else some (.status st)

/-- An error that has a `GRPCStatus()` method. -/
inductive StatusLink where
  | errorx (p : Ptr)
  | errorxNil
  | status (s : Status)

mutual
/-- Call `errors.As(err, &gs)` for `gs` of the interface with the method `GRPCStatus()`:
the first error of the tree, in depth-first order, that has the method. -/
def firstStatusLink : GoError → Option StatusLink
  | .errorx p => some (.errorx p)
  | .errorxNil => some .errorxNil
  | .status s => some (.status s)
  | .plain _ => none
  | .wrap _ inner => firstStatusLink inner
  | .join _ errs => firstStatusLinkList errs
/-- The same traversal over the errors of an `Unwrap() []error`, in order. -/
def firstStatusLinkList : GoErrors → Option StatusLink
  | .nil => none
  | .cons e rest =>
    match firstStatusLink e with
    | some l => some l
    | none => firstStatusLinkList rest
end

/-- Call of the method `GRPCStatus()`: the method of `ErrorX` on a record, which does not
return through a nil pointer (`none`), and the status held by a gRPC status error. -/
def StatusLink.GRPCStatus (T : CodeTable) (h : Heap) : StatusLink → Option (Option Status)
  | .errorx p => some (Errorsx.GRPCStatus T (h.cells p))
  | .errorxNil => none
  | .status s => some (some s)

/-- The part of `status.FromError` for an error without the method `GRPCStatus()`, with
text `text`, given the result of `errors.As`: the status of the error found with the
description replaced by `text`; a status `Unknown` with `text` and `false` when nothing
is found or the status found is nil. -/
def statusOfWrapped (T : CodeTable) (h : Heap) (text : String) :
    Option StatusLink → Option (Status × Bool)
  | none => some (statusNew codesUnknown text, false)
  | some link =>
    match link.GRPCStatus T h with
    | none => none
    | some none => some (statusNew codesUnknown text, false)
    | some (some gs) =>
      some ({ code := gs.code, message := text, details := gs.details }, true)

/-- Function `status.FromError` on a non-nil error.  An error that itself has a
`GRPCStatus()` method yields that status; an error wrapping one yields that status with
the description replaced by the text of the whole error; in any other case, and when
the method returns the nil status, the result is a status `Unknown` with the text of
the error and `false`. -/
def statusFromError (T : CodeTable) (h : Heap) (err : GoError) : Option (Status × Bool) :=
  match err with
  | .errorx p =>
    match Errorsx.GRPCStatus T (h.cells p) with
    | some gs => some (gs, true)
    | none => some (statusNew codesUnknown (h.cells p).Error, false)
  | .errorxNil => none
  | .status s => some (s, true)
  | .plain text => some (statusNew codesUnknown text, false)
  | .wrap text inner => statusOfWrapped T h text (firstStatusLink inner)
  | .join text errs => statusOfWrapped T h text (firstStatusLinkList errs)

/-- The loop over `gs.Details()` of `FromError`, on the record `ret`: the first
`ErrorInfo` record assigns `Reason`, then `WithMetadata` is called with its metadata and
its result returned; when the list is exhausted `ret` is returned. -/
def scanDetails (h : Heap) (ret : Ptr) : List Detail → Heap × Ptr
  | [] => (h, ret)
  | .errorInfo reason metadata :: _ =>
    WithMetadata (h.write ret { h.cells ret with Reason := reason }) ret
      (decodeMetadata metadata)
  | .other _ :: rest => scanDetails h ret rest

/-- Function `FromError`.  The result pointer is `none` for the nil `*ErrorX`: for the nil
error, and when `errors.As` stores a nil pointer in `errx`.  The record allocated by
`new(ErrorX)` for the call of `errors.As` is never reachable afterwards and is left out
of the heap. -/
def FromError (T : CodeTable) (h : Heap) (err : Option GoError) :
    Option (Heap × Option Ptr) :=
  match err with
  | none => some (h, none)
  | some e =>
    match errorsAs e with
    | some errx => some (h, errx)
    | none =>
      match statusFromError T h e with
      | none => none
      | some (_, false) =>
        match e.Error h with
        | none => none
        | some text =>
          let r := New h ErrInternal.Code ErrInternal.Reason "%s" [.str text]
          some (r.1, some r.2)
      | some (gs, true) =>
        let r := New h (T.FromGRPCCode gs.code) ErrInternal.Reason "%s" [.str gs.message]
        let r2 := scanDetails r.1 r.2 gs.details
        some (r2.1, some r2.2)

/-- Function `Code`: reading the field `Code` of the result of `FromError` does not
return (`none`) when that result is the nil pointer. -/
def Code (T : CodeTable) (h : Heap) (err : Option GoError) : Option Int :=
  match err with
  | none => some StatusOK
  | some e =>
    match FromError T h (some e) with
    | some (h2, some p) => some (h2.cells p).Code
    | _ => none

/-- Function `Reason`: reading the field `Reason` of the result of `FromError` does not
return (`none`) when that result is the nil pointer. -/
def Reason (T : CodeTable) (h : Heap) (err : Option GoError) : Option String :=
  match err with
  | none => some ErrInternal.Reason
  | some e =>
    match FromError T h (some e) with
    | some (h2, some p) => some (h2.cells p).Reason
    | _ => none

/-- A call of one of the four decoration methods, with its arguments. -/
inductive Decoration where
  | withMessage (format : String) (args : List Arg)
  | withMetadata (md : Option GoMap)
  | kv (kvs : List String)
  | withRequestID (requestID : String)

/-- The decoration call `d` on the receiver `err`. -/
def decorate (h : Heap) (err : Ptr) : Decoration → Heap × Ptr
  | .withMessage format args => WithMessage h err format args
  | .withMetadata md => WithMetadata h err md
  | .kv kvs => KV h err kvs
  | .withRequestID requestID => WithRequestID h err requestID

/-! ## Specification-side definitions -/

/-- The pairs `(kvs[2i], kvs[2i+1])` for every `i` with `2i+1 < len(kvs)`, in order. -/
def kvPairs (kvs : List String) : List (String × String) :=
  (List.range (kvs.length / 2)).map (fun i => (kvs.getD (2 * i) "", kvs.getD (2 * i + 1) ""))

/-- A map overwritten, in order, with a list of pairs. -/
def overwriteAll (m : GoMap) (ps : List (String × String)) : GoMap :=
  ps.foldl (fun acc kv => GoMap.put kv.1 kv.2 acc) m

/-- Rendering of metadata in the words of the specification: `map[k1:v1 k2:v2 ...]`, the
entries separated by one blank, `map[]` for a nil or empty map. -/
def renderMetadata (md : Option GoMap) : String :=
  "map[" ++ " ".intercalate ((md.getD []).map (fun kv => kv.1 ++ ":" ++ kv.2)) ++ "]"

/-- A heap holding the record `e` at every address. -/
def Heap.const (e : ErrorX) : Heap := { cells := fun _ => e, next := 1 }

/-! ## Basic facts -/

/-- The format `%s` applied to one string prints the string. -/
theorem Sprintf_s (s : String) : Sprintf "%s" [.str s] = s := by
  simp [Sprintf, sprintfAux, fmtArg, fmtString]

/-- Reading the record just written. -/
theorem Heap.write_cells_same (h : Heap) (p : Ptr) (e : ErrorX) :
    (h.write p e).cells p = e := by
  simp [Heap.write]

/-- Writing at `p` leaves the other records as they were. -/
theorem Heap.write_cells_other (h : Heap) (p q : Ptr) (e : ErrorX) (hq : q ≠ p) :
    (h.write p e).cells q = h.cells q := by
  simp [Heap.write, hq]

/-- Reading the record just allocated. -/
theorem Heap.alloc_cells_new (h : Heap) (e : ErrorX) :
    (h.alloc e).1.cells (h.alloc e).2 = e := by
  simp [Heap.alloc]

/-- The status produced by `GRPCStatus` when the code is not mapped to `OK` and the
reason and the metadata are valid UTF-8. -/
theorem GRPCStatus_of_ne_OK (T : CodeTable) (e : ErrorX) (hok : T.ToGRPCCode e.Code ≠ codesOK)
    (hreason : validUTF8 e.Reason = true) (hmd : validMetadata e.Metadata = true) :
    GRPCStatus T e = some
      { code := T.ToGRPCCode e.Code
        message := e.Message
        details := [Detail.errorInfo e.Reason (e.Metadata.getD [])] } := by
  simp [GRPCStatus, WithDetails, statusNew, marshalAll, marshalErrorInfo, hok, hreason, hmd]

/-- The nil status returned by `GRPCStatus` when the code is mapped to `OK`. -/
theorem GRPCStatus_of_OK (T : CodeTable) (e : ErrorX) (hok : T.ToGRPCCode e.Code = codesOK) :
    GRPCStatus T e = none := by
  simp [GRPCStatus, WithDetails, statusNew, hok]

/-- The nil status returned by `GRPCStatus` when the reason or the metadata is not valid
UTF-8. -/
theorem GRPCStatus_of_invalid (T : CodeTable) (e : ErrorX)
    (hbad : (validUTF8 e.Reason && validMetadata e.Metadata) = false) :
    GRPCStatus T e = none := by
  unfold GRPCStatus WithDetails
  split
  · rfl
  · simp [marshalAll, marshalErrorInfo, hbad]

/-! ## C1: round trip through the gRPC status -/

/-- In the kratos tables these codes are not mapped to `OK` and are mapped back to
themselves. -/
theorem kratos_roundtrip_codes :
    ∀ code ∈ ([400, 401, 403, 404, 409, 429, 499, 500, 501, 503, 504] : List Int),
      kratos.ToGRPCCode code ≠ codesOK ∧
        kratos.FromGRPCCode (kratos.ToGRPCCode code) = code := by
  decide

/-- C1 (amended): for every Error Value `e` whose metadata holds at least one key/value
pair, whose code is not mapped to the gRPC code `OK`, and whose reason and metadata
keys and values are valid UTF-8 (any message), rendering `e` with `GRPCStatus` and
passing the error of the resulting status to `FromError` yields an Error Value with the
reason, the metadata and the message of `e`, and with the code
`FromGRPCCode (ToGRPCCode e.Code)`, which is `e.Code` whenever the two lookups map the
code back to itself. -/
theorem grpc_roundtrip (T : CodeTable) (h : Heap) (e : ErrorX)
    (hmd : ∃ m, e.Metadata = some m ∧ m ≠ [])
    (hok : T.ToGRPCCode e.Code ≠ codesOK)
    (hreason : validUTF8 e.Reason = true)
    (hvalid : validMetadata e.Metadata = true) :
    ∃ h2 p, FromError T h (statusErr (GRPCStatus T e)) = some (h2, some p) ∧
      (h2.cells p).Reason = e.Reason ∧
      (h2.cells p).Metadata = e.Metadata ∧
      (h2.cells p).Message = e.Message ∧
      (h2.cells p).Code = T.FromGRPCCode (T.ToGRPCCode e.Code) ∧
      (T.FromGRPCCode (T.ToGRPCCode e.Code) = e.Code → (h2.cells p).Code = e.Code) := by
  obtain ⟨m, hm, hne⟩ := hmd
  rw [GRPCStatus_of_ne_OK T e hok hreason hvalid]
  simp only [statusErr, if_neg hok, FromError, errorsAs, statusFromError, scanDetails]
  refine ⟨_, _, rfl, ?_⟩
  simp [New, Heap.alloc, WithMetadata, Heap.write, Sprintf_s, hm, decodeMetadata, hne]

/-- Witness of `grpc_roundtrip`: the catalog entry `ErrOperationFailed` (409) with a
request identifier comes back with code 409, its reason and its metadata. -/
theorem grpc_roundtrip_witness :
    ∃ h2 p, FromError kratos (Heap.const OK)
        (statusErr (GRPCStatus kratos
          { ErrOperationFailed with Metadata := some [("X-Request-ID", "req-42")] })) =
          some (h2, some p) ∧
      (h2.cells p).Reason = "OperationFailed" ∧
      (h2.cells p).Metadata = some [("X-Request-ID", "req-42")] ∧
      (h2.cells p).Code = 409 := by
  obtain ⟨h2, p, h1, h3, h4, _, _, h6⟩ := grpc_roundtrip kratos (Heap.const OK)
    { ErrOperationFailed with Metadata := some [("X-Request-ID", "req-42")] }
    ⟨_, rfl, by decide⟩ (by decide) (by decide) (by decide)
  exact ⟨h2, p, h1, h3, h4, h6 (by decide)⟩

/-- C1 as stated fails: with the kratos tables, an Error Value with code 200 and one
metadata pair has the nil status, whose error is nil, and `FromError` returns the nil
pointer; an Error Value with code 418 and one metadata pair comes back with code 500;
and an Error Value with code 404 whose reason holds the byte `0xff`, or whose metadata
holds the value `0xc3 0x28`, has the nil status and `FromError` returns the nil
pointer. -/
theorem grpc_roundtrip_counterexample :
    FromError kratos (Heap.const OK)
        (statusErr (GRPCStatus kratos { OK with Metadata := some [("a", "1")] }))
      = some (Heap.const OK, none) ∧
    (∃ h2 p, FromError kratos (Heap.const OK)
        (statusErr (GRPCStatus kratos
          { Code := 418, Reason := "Teapot", Message := "short and stout"
            Metadata := some [("a", "1")] })) = some (h2, some p) ∧
      (h2.cells p).Code = 500) ∧
    FromError kratos (Heap.const OK)
        (statusErr (GRPCStatus kratos
          { Code := 404, Reason := "bad\xff", Message := "m", Metadata := some [("a", "1")] }))
      = some (Heap.const OK, none) ∧
    FromError kratos (Heap.const OK)
        (statusErr (GRPCStatus kratos
          { Code := 404, Reason := "NotFound", Message := "m"
            Metadata := some [("a", "\xc3\x28")] }))
      = some (Heap.const OK, none) := by
  refine ⟨rfl, ⟨_, _, rfl, ?_⟩, rfl, rfl⟩
  simp [New, Heap.alloc, WithMetadata, Heap.write, Heap.const, kratos, kratosToGRPCCode,
    kratosFromGRPCCode, codesUnknown, GRPCStatus, WithDetails, statusNew, codesOK, scanDetails,
    marshalAll, marshalErrorInfo]

/-! ## Traversal of the error tree -/

mutual
/-- The pointer found by `errors.As` is held by an error of the tree. -/
theorem errorsAs_sound (err : GoError) (p : Option Ptr) (hAs : errorsAs err = some p) :
    chainContains err p := by
  cases err with
  | errorx q =>
    simp only [errorsAs, Option.some.injEq] at hAs
    simp [chainContains, hAs]
  | errorxNil =>
    simp only [errorsAs, Option.some.injEq] at hAs
    simp [chainContains, hAs]
  | status s => simp [errorsAs] at hAs
  | plain text => simp [errorsAs] at hAs
  | wrap text inner =>
    simp only [errorsAs] at hAs
    simp only [chainContains]
    exact errorsAs_sound inner p hAs
  | join text errs =>
    simp only [errorsAs] at hAs
    simp only [chainContains]
    exact errorsAsList_sound errs p hAs
/-- The same for the errors of an `Unwrap() []error`. -/
theorem errorsAsList_sound (errs : GoErrors) (p : Option Ptr)
    (hAs : errorsAsList errs = some p) : chainContainsList errs p := by
  cases errs with
  | nil => simp [errorsAsList] at hAs
  | cons e rest =>
    simp only [errorsAsList] at hAs
    simp only [chainContainsList]
    cases he : errorsAs e with
    | some r =>
      rw [he] at hAs
      simp only [Option.some.injEq] at hAs
      subst hAs
      exact Or.inl (errorsAs_sound e r he)
    | none =>
      rw [he] at hAs
      exact Or.inr (errorsAsList_sound rest p hAs)
end

mutual
/-- When `errors.As` finds nothing, no error of the tree has the type `*ErrorX`. -/
theorem errorsAs_none_complete (err : GoError) (p : Option Ptr) (hAs : errorsAs err = none) :
    ¬ chainContains err p := by
  cases err with
  | errorx q => simp [errorsAs] at hAs
  | errorxNil => simp [errorsAs] at hAs
  | status s => simp [chainContains]
  | plain text => simp [chainContains]
  | wrap text inner =>
    simp only [errorsAs] at hAs
    simp only [chainContains]
    exact errorsAs_none_complete inner p hAs
  | join text errs =>
    simp only [errorsAs] at hAs
    simp only [chainContains]
    exact errorsAsList_none_complete errs p hAs
/-- The same for the errors of an `Unwrap() []error`. -/
theorem errorsAsList_none_complete (errs : GoErrors) (p : Option Ptr)
    (hAs : errorsAsList errs = none) : ¬ chainContainsList errs p := by
  cases errs with
  | nil => simp [chainContainsList]
  | cons e rest =>
    simp only [errorsAsList] at hAs
    simp only [chainContainsList]
    cases he : errorsAs e with
    | some r =>
      rw [he] at hAs
      exact Option.noConfusion hAs
    | none =>
      rw [he] at hAs
      intro hc
      rcases hc with hc | hc
      · exact errorsAs_none_complete e p he hc
      · exact errorsAsList_none_complete rest p hAs hc
end

/-- The search `errors.As` fails exactly on the trees without any error of type
`*ErrorX`. -/
theorem errorsAs_eq_none_iff (err : GoError) :
    errorsAs err = none ↔ ∀ p, ¬ chainContains err p := by
  constructor
  · intro hnone p
    exact errorsAs_none_complete err p hnone
  · intro hno
    cases hAs : errorsAs err with
    | none => rfl
    | some p => exact absurd (errorsAs_sound err p hAs) (hno p)

/-- In a linear chain `errors.As` finds exactly the pointer the chain holds. -/
theorem errorsAs_of_isChain (err : GoError) (p : Option Ptr) (hchain : err.isChain = true)
    (hp : chainContains err p) : errorsAs err = some p := by
  cases err with
  | errorx q =>
    simp only [chainContains] at hp
    simp [errorsAs, hp]
  | errorxNil =>
    simp only [chainContains] at hp
    simp [errorsAs, hp]
  | status s => simp [chainContains] at hp
  | plain text => simp [chainContains] at hp
  | wrap text inner =>
    simp only [GoError.isChain] at hchain
    simp only [chainContains] at hp
    simp only [errorsAs]
    exact errorsAs_of_isChain inner p hchain hp
  | join text errs => simp [GoError.isChain] at hchain

mutual
/-- The error with the method `GRPCStatus()` found in a tree without any `*ErrorX` is a
gRPC status error. -/
theorem firstStatusLink_of_no_errorx (err : GoError) (l : StatusLink)
    (hno : ∀ p, ¬ chainContains err p) (hl : firstStatusLink err = some l) :
    ∃ s, l = StatusLink.status s := by
  cases err with
  | errorx q => exact absurd (by simp [chainContains]) (hno (some q))
  | errorxNil => exact absurd (by simp [chainContains]) (hno none)
  | status s =>
    simp only [firstStatusLink, Option.some.injEq] at hl
    exact ⟨s, hl.symm⟩
  | plain text => simp [firstStatusLink] at hl
  | wrap text inner =>
    simp only [firstStatusLink] at hl
    simp only [chainContains] at hno
    exact firstStatusLink_of_no_errorx inner l hno hl
  | join text errs =>
    simp only [firstStatusLink] at hl
    simp only [chainContains] at hno
    exact firstStatusLinkList_of_no_errorx errs l hno hl
/-- The same for the errors of an `Unwrap() []error`. -/
theorem firstStatusLinkList_of_no_errorx (errs : GoErrors) (l : StatusLink)
    (hno : ∀ p, ¬ chainContainsList errs p) (hl : firstStatusLinkList errs = some l) :
    ∃ s, l = StatusLink.status s := by
  cases errs with
  | nil => simp [firstStatusLinkList] at hl
  | cons e rest =>
    simp only [firstStatusLinkList] at hl
    simp only [chainContainsList, not_or] at hno
    cases he : firstStatusLink e with
    | some r =>
      rw [he] at hl
      simp only [Option.some.injEq] at hl
      subst hl
      exact firstStatusLink_of_no_errorx e r (fun p => (hno p).1) he
    | none =>
      rw [he] at hl
      exact firstStatusLinkList_of_no_errorx rest l (fun p => (hno p).2) hl
end

/-- On an error found in a tree without any `*ErrorX`, `status.FromError` for the
wrapping error returns. -/
theorem statusOfWrapped_returns (T : CodeTable) (h : Heap) (text : String)
    (found : Option StatusLink) (hfound : ∀ l, found = some l → ∃ s, l = StatusLink.status s) :
    ∃ r, statusOfWrapped T h text found = some r := by
  cases found with
  | none => exact ⟨_, rfl⟩
  | some l =>
    obtain ⟨s, hs⟩ := hfound l rfl
    subst hs
    exact ⟨_, rfl⟩

/-- On a tree without any `*ErrorX`, `status.FromError` returns. -/
theorem statusFromError_returns (T : CodeTable) (h : Heap) (err : GoError)
    (hno : ∀ p, ¬ chainContains err p) : ∃ r, statusFromError T h err = some r := by
  cases err with
  | errorx q => exact absurd (by simp [chainContains]) (hno (some q))
  | errorxNil => exact absurd (by simp [chainContains]) (hno none)
  | status s => exact ⟨_, rfl⟩
  | plain text => exact ⟨_, rfl⟩
  | wrap text inner =>
    simp only [chainContains] at hno
    exact statusOfWrapped_returns T h text _
      (fun l hl => firstStatusLink_of_no_errorx inner l hno hl)
  | join text errs =>
    simp only [chainContains] at hno
    exact statusOfWrapped_returns T h text _
      (fun l hl => firstStatusLinkList_of_no_errorx errs l hno hl)

/-- On an error that is not a nil `*ErrorX`, the method `Error` returns. -/
theorem Error_returns (h : Heap) (err : GoError) (hno : ¬ chainContains err none) :
    ∃ text, err.Error h = some text := by
  cases err with
  | errorx q => exact ⟨_, rfl⟩
  | errorxNil => exact absurd (by simp [chainContains]) hno
  | status s => exact ⟨_, rfl⟩
  | plain text => exact ⟨_, rfl⟩
  | wrap text inner => exact ⟨_, rfl⟩
  | join text errs => exact ⟨_, rfl⟩

/-! ## C2: errors without classification -/

/-- C2: for every non-nil error whose tree contains no Error Value (no error of type
`*ErrorX` at all) and which `status.FromError` does not interpret as a gRPC status,
`FromError` returns a non-nil Error Value with code 500, reason `InternalError`, the
text of the error as message and no metadata. -/
theorem FromError_unclassified (T : CodeTable) (h : Heap) (err : GoError)
    (hno : ∀ p, ¬ chainContains err p)
    (hgs : ∀ gs, statusFromError T h err ≠ some (gs, true)) :
    ∃ h2 p text, FromError T h (some err) = some (h2, some p) ∧
      err.Error h = some text ∧
      h2.cells p =
        { Code := 500, Reason := "InternalError", Message := text, Metadata := none } := by
  have hAs : errorsAs err = none := (errorsAs_eq_none_iff err).mpr hno
  obtain ⟨⟨gs, b⟩, hsf⟩ := statusFromError_returns T h err hno
  obtain ⟨text, htext⟩ := Error_returns h err (hno none)
  cases b with
  | true => exact absurd hsf (hgs gs)
  | false =>
    simp only [FromError, hAs, hsf, htext]
    refine ⟨_, _, text, rfl, rfl, ?_⟩
    simp [New, Heap.alloc, Sprintf_s, ErrInternal]

/-- Witness of `FromError_unclassified`: an error of another type, wrapped once. -/
theorem FromError_unclassified_witness :
    ∃ h2 p text, FromError kratos (Heap.const OK)
        (some (.wrap "load config: file missing" (.plain "file missing"))) =
          some (h2, some p) ∧
      GoError.Error (Heap.const OK) (.wrap "load config: file missing" (.plain "file missing")) =
        some text ∧
      h2.cells p =
        { Code := 500, Reason := "InternalError", Message := text, Metadata := none } :=
  FromError_unclassified kratos (Heap.const OK)
    (.wrap "load config: file missing" (.plain "file missing"))
    (fun _ hp => hp) (fun _ hc => by simp [statusFromError, statusOfWrapped, firstStatusLink] at hc)

/-! ## C3: an Error Value is returned as it is -/

/-- C3: for every error that is an Error Value or wraps one at any depth of its chain,
`FromError` returns the pointer to that very Error Value and leaves the heap, hence all
its fields, unchanged; no status is derived.  In a tree with joined errors the pointer
returned is the one `errors.As` finds, held by an error of the tree, and the heap is
unchanged as well. -/
theorem FromError_identity (T : CodeTable) (h : Heap) (err : GoError) (p : Option Ptr)
    (hp : chainContains err p) :
    (err.isChain = true → FromError T h (some err) = some (h, p)) ∧
    (∃ q, chainContains err q ∧ FromError T h (some err) = some (h, q)) := by
  constructor
  · intro hchain
    have hAs : errorsAs err = some p := errorsAs_of_isChain err p hchain hp
    simp only [FromError, hAs]
  · cases hAs : errorsAs err with
    | none => exact absurd hp ((errorsAs_eq_none_iff err).mp hAs p)
    | some q => exact ⟨q, errorsAs_sound err q hAs, by simp only [FromError, hAs]⟩

/-- Witness of `FromError_identity`: an Error Value wrapped twice. -/
theorem FromError_identity_witness :
    FromError kratos (Heap.const ErrNotFound)
        (some (.wrap "handler: store: not found" (.wrap "store: not found" (.errorx 0))))
      = some (Heap.const ErrNotFound, some 0) :=
  (FromError_identity kratos (Heap.const ErrNotFound)
    (.wrap "handler: store: not found" (.wrap "store: not found" (.errorx 0))) (some 0)
    (by simp [chainContains])).1 rfl

/-! ## C4: detail attachments of a gRPC status -/

/-- The scan stops at the first `ErrorInfo` record: records of other kinds before it
are skipped and nothing after it is read. -/
theorem scanDetails_first (h : Heap) (ret : Ptr) (pre post : List Detail)
    (reason : String) (metadata : GoMap) (hpre : ∀ d ∈ pre, d.isErrorInfo = false) :
    scanDetails h ret (pre ++ Detail.errorInfo reason metadata :: post) =
      WithMetadata (h.write ret { h.cells ret with Reason := reason }) ret
        (decodeMetadata metadata) := by
  induction pre with
  | nil => simp [scanDetails]
  | cons d pre ih =>
    have hd : d.isErrorInfo = false := hpre d (List.mem_cons_self _ _)
    have hrest : ∀ x ∈ pre, x.isErrorInfo = false :=
      fun x hx => hpre x (List.mem_cons_of_mem _ hx)
    cases d with
    | errorInfo r m => simp [Detail.isErrorInfo] at hd
    | other url => simpa [scanDetails] using ih hrest

/-- Without any `ErrorInfo` record the scan changes nothing. -/
theorem scanDetails_none (h : Heap) (ret : Ptr) (ds : List Detail)
    (hds : ∀ d ∈ ds, d.isErrorInfo = false) :
    scanDetails h ret ds = (h, ret) := by
  induction ds with
  | nil => rfl
  | cons d ds ih =>
    have hd : d.isErrorInfo = false := hds d (List.mem_cons_self _ _)
    have hrest : ∀ x ∈ ds, x.isErrorInfo = false :=
      fun x hx => hds x (List.mem_cons_of_mem _ hx)
    cases d with
    | errorInfo r m => simp [Detail.isErrorInfo] at hd
    | other url => simpa [scanDetails] using ih hrest

/-- The scan returns the record it was given and never assigns its code or message. -/
theorem scanDetails_frame (h : Heap) (ret : Ptr) (ds : List Detail) :
    (scanDetails h ret ds).2 = ret ∧
      ((scanDetails h ret ds).1.cells ret).Code = (h.cells ret).Code ∧
      ((scanDetails h ret ds).1.cells ret).Message = (h.cells ret).Message := by
  induction ds with
  | nil => simp [scanDetails]
  | cons d ds ih =>
    cases d with
    | errorInfo r m => simp [scanDetails, WithMetadata, Heap.write]
    | other url => simpa [scanDetails] using ih

/-- C4: for every gRPC status error (an error without any `*ErrorX` in its tree that
`status.FromError` interprets as the status `gs`), `FromError` returns an Error Value
whose code is the inverse lookup of the status code and whose message is the status
description; its reason and metadata are those of the first `ErrorInfo` record in list
order, whatever precedes it (records of other kinds) and whatever follows it; without
any `ErrorInfo` record the reason is `InternalError` and there is no metadata. -/
theorem FromError_status_details (T : CodeTable) (h : Heap) (err : GoError) (gs : Status)
    (hno : ∀ p, ¬ chainContains err p)
    (hgs : statusFromError T h err = some (gs, true)) :
    ∃ h2 p, FromError T h (some err) = some (h2, some p) ∧
      (h2.cells p).Code = T.FromGRPCCode gs.code ∧
      (h2.cells p).Message = gs.message ∧
      (∀ pre reason metadata post,
        gs.details = pre ++ Detail.errorInfo reason metadata :: post →
        (∀ d ∈ pre, d.isErrorInfo = false) →
        (h2.cells p).Reason = reason ∧ (h2.cells p).Metadata = decodeMetadata metadata) ∧
      ((∀ d ∈ gs.details, d.isErrorInfo = false) →
        (h2.cells p).Reason = "InternalError" ∧ (h2.cells p).Metadata = none) := by
  have hAs : errorsAs err = none := (errorsAs_eq_none_iff err).mpr hno
  simp only [FromError, hAs, hgs]
  refine ⟨_, _, rfl, ?_, ?_, ?_, ?_⟩
  · have hf := scanDetails_frame
      (New h (T.FromGRPCCode gs.code) ErrInternal.Reason "%s" [.str gs.message]).1
      (New h (T.FromGRPCCode gs.code) ErrInternal.Reason "%s" [.str gs.message]).2 gs.details
    rw [hf.1, hf.2.1]
    simp [New, Heap.alloc]
  · have hf := scanDetails_frame
      (New h (T.FromGRPCCode gs.code) ErrInternal.Reason "%s" [.str gs.message]).1
      (New h (T.FromGRPCCode gs.code) ErrInternal.Reason "%s" [.str gs.message]).2 gs.details
    rw [hf.1, hf.2.2]
    simp [New, Heap.alloc, Sprintf_s]
  · intro pre reason metadata post hdet hpre
    rw [hdet, scanDetails_first _ _ pre post reason metadata hpre]
    simp [WithMetadata, Heap.write]
  · intro hds
    rw [scanDetails_none _ _ gs.details hds]
    simp [New, Heap.alloc, ErrInternal]

/-- Witness of `FromError_status_details`: a status `NotFound` carrying a record of
another kind and then two `ErrorInfo` records; the first `ErrorInfo` record decides. -/
theorem FromError_status_details_witness :
    ∃ h2 p, FromError kratos (Heap.const OK)
        (some (.status
          { code := 5, message := "no such user"
            details := [.other "type.googleapis.com/google.rpc.RetryInfo",
              .errorInfo "UserNotFound" [("id", "7")],
              .errorInfo "Shadowed" [("id", "8"), ("zone", "eu")]] })) = some (h2, some p) ∧
      (h2.cells p).Code = 404 ∧ (h2.cells p).Message = "no such user" ∧
      (h2.cells p).Reason = "UserNotFound" ∧ (h2.cells p).Metadata = some [("id", "7")] := by
  obtain ⟨h2, p, h1, h3, h4, h5, _⟩ := FromError_status_details kratos (Heap.const OK)
    (.status
      { code := 5, message := "no such user"
        details := [.other "type.googleapis.com/google.rpc.RetryInfo",
          .errorInfo "UserNotFound" [("id", "7")],
          .errorInfo "Shadowed" [("id", "8"), ("zone", "eu")]] })
    _ (fun _ hp => hp) rfl
  have h6 := h5 [.other "type.googleapis.com/google.rpc.RetryInfo"] "UserNotFound"
    [("id", "7")] [.errorInfo "Shadowed" [("id", "8"), ("zone", "eu")]] rfl (by decide)
  exact ⟨h2, p, h1, h3, h4, h6.1, h6.2⟩

/-! ## C5: matching -/

/-- Matching reads nothing but codes and reasons. -/
theorem Is_congr (h h2 : Heap) (e : Ptr) (target : Option GoError)
    (hagree : ∀ q, (h2.cells q).Code = (h.cells q).Code ∧
      (h2.cells q).Reason = (h.cells q).Reason) :
    Is h2 e target = Is h e target := by
  cases target with
  | none => rfl
  | some t =>
    cases hAs : errorsAs t with
    | none => simp [Is, hAs]
    | some r =>
      cases r with
      | none => simp [Is, hAs]
      | some p => simp [Is, hAs, (hagree p).1, (hagree p).2, (hagree e).1, (hagree e).2]

/-- C5 (amended): `e.Is(target)` is false for the nil target and when `errors.As` finds
no `*ErrorX` in the tree of `target`; when the first `*ErrorX` found (depth first, in
order) is an Error Value `x`, it is true exactly when `x` has the code and the reason of
`e`; for a linear chain holding no nil `*ErrorX`, it is true exactly when the chain
contains an Error Value with the code and the reason of `e`.  It has the same value on
every heap that agrees on codes and reasons, whatever the messages and metadata, and
`e` matches `New(e.Code, e.Reason, ...)` for every message. -/
theorem Is_iff (h : Heap) (e : Ptr) (target : Option GoError) :
    (target = none → Is h e target = some false) ∧
    (∀ t, target = some t → errorsAs t = none → Is h e target = some false) ∧
    ((∀ t x, target = some t → ¬ chainContains t x) → Is h e target = some false) ∧
    (∀ t x, target = some t → errorsAs t = some (some x) →
      (Is h e target = some true ↔
        (h.cells x).Code = (h.cells e).Code ∧ (h.cells x).Reason = (h.cells e).Reason) ∧
      (Is h e target = some false ↔
        ¬ ((h.cells x).Code = (h.cells e).Code ∧ (h.cells x).Reason = (h.cells e).Reason))) ∧
    (∀ t, target = some t → t.isChain = true → ¬ chainContains t none →
      (Is h e target = some true ↔
        ∃ x, chainContains t (some x) ∧
          (h.cells x).Code = (h.cells e).Code ∧ (h.cells x).Reason = (h.cells e).Reason) ∧
      (Is h e target = some true ∨ Is h e target = some false)) ∧
    (∀ h2 : Heap,
      (∀ q, (h2.cells q).Code = (h.cells q).Code ∧ (h2.cells q).Reason = (h.cells q).Reason) →
      Is h2 e target = Is h e target) ∧
    (∀ (format : String) (args : List Arg),
      Is (New h (h.cells e).Code (h.cells e).Reason format args).1 e
        (some (.errorx (New h (h.cells e).Code (h.cells e).Reason format args).2)) =
          some true) := by
  refine ⟨?_, ?_, ?_, ?_, ?_, ?_, ?_⟩
  · intro ht
    subst ht
    rfl
  · intro t ht hAs
    subst ht
    simp [Is, hAs]
  · intro hno
    cases target with
    | none => rfl
    | some t =>
      have hAs : errorsAs t = none := (errorsAs_eq_none_iff t).mpr (fun x => hno t x rfl)
      simp [Is, hAs]
  · intro t x ht hAs
    subst ht
    by_cases hc : (h.cells x).Code = (h.cells e).Code
    · by_cases hr : (h.cells x).Reason = (h.cells e).Reason
      · simp [Is, hAs, hc, hr]
      · simp [Is, hAs, hc, hr]
    · simp [Is, hAs, hc]
  · intro t ht hchain hnil
    subst ht
    cases hAs : errorsAs t with
    | none =>
      have hno := (errorsAs_eq_none_iff t).mp hAs
      have hIs : Is h e (some t) = some false := by simp [Is, hAs]
      rw [hIs]
      refine ⟨⟨fun hf => ?_, ?_⟩, Or.inr rfl⟩
      · simp at hf
      · rintro ⟨x, hx, -⟩
        exact absurd hx (hno (some x))
    | some r =>
      cases r with
      | none => exact absurd (errorsAs_sound t none hAs) hnil
      | some p =>
        have hp := errorsAs_sound t (some p) hAs
        have hIs : Is h e (some t) = some (decide ((h.cells p).Code = (h.cells e).Code) &&
            decide ((h.cells p).Reason = (h.cells e).Reason)) := by
          simp only [Is, hAs]
        rw [hIs]
        refine ⟨⟨fun hcr => ?_, ?_⟩, ?_⟩
        · simp only [Option.some.injEq, Bool.and_eq_true, decide_eq_true_eq] at hcr
          exact ⟨p, hp, hcr.1, hcr.2⟩
        · rintro ⟨x, hx, hc, hr⟩
          have hxp : errorsAs t = some (some x) := errorsAs_of_isChain t (some x) hchain hx
          rw [hAs] at hxp
          simp only [Option.some.injEq] at hxp
          subst hxp
          simp [hc, hr]
        · cases (decide ((h.cells p).Code = (h.cells e).Code) &&
            decide ((h.cells p).Reason = (h.cells e).Reason))
          · exact Or.inr rfl
          · exact Or.inl rfl
  · intro h2 hagree
    exact Is_congr h h2 e target hagree
  · intro format args
    by_cases he : e = h.next
    · simp [Is, errorsAs, New, Heap.alloc, he]
    · simp [Is, errorsAs, New, Heap.alloc, he]

/-- Witness of `Is_iff`: a not-found error wrapped twice matches the catalog entry,
although message and metadata differ. -/
theorem Is_iff_witness :
    Is { cells := fun q => if q = 0 then ErrNotFound else
            { Code := 404, Reason := "NotFound", Message := "user 7 not found"
              Metadata := some [("X-Request-ID", "req-42")] }
         next := 2 } 0
      (some (.wrap "handler: store: user 7 not found" (.wrap "store: user 7 not found"
        (.errorx 1)))) = some true :=
  (((Is_iff
      { cells := fun q => if q = 0 then ErrNotFound else
          { Code := 404, Reason := "NotFound", Message := "user 7 not found"
            Metadata := some [("X-Request-ID", "req-42")] }
        next := 2 } 0
      (some (.wrap "handler: store: user 7 not found" (.wrap "store: user 7 not found"
        (.errorx 1))))).2.2.2.2.1 _ rfl rfl (by simp [chainContains])).1).mpr
    ⟨1, by simp [chainContains], rfl, rfl⟩

/-- C5 as stated fails.  On a heap holding a bad-request value at address 0 and a
not-found value at address 1, the error joining both contains the Error Value at
address 1, which has the code and the reason of the receiver at address 1, yet `Is` is
false: the first Error Value found decides.  And for a target holding a nil `*ErrorX`,
whose tree contains no Error Value, `Is` does not return false, it does not return. -/
theorem Is_counterexample :
    chainContains
        (.join "bad request; not found" (.cons (.errorx 0) (.cons (.errorx 1) .nil)))
        (some 1) ∧
    Is { cells := fun q => if q = 0 then ErrInvalidArgument else ErrNotFound, next := 2 } 1
      (some (.join "bad request; not found" (.cons (.errorx 0) (.cons (.errorx 1) .nil))))
      = some false ∧
    (∀ x : Ptr, ¬ chainContains .errorxNil (some x)) ∧
    Is (Heap.const ErrNotFound) 0 (some .errorxNil) = none := by
  refine ⟨?_, rfl, ?_, rfl⟩
  · simp [chainContains, chainContainsList]
  · intro x
    simp [chainContains]

/-! ## C6: key/value arguments -/

/-- The loop of `KV` from an even index `2 * j`, with enough fuel, overwrites the map
with the remaining pairs in order. -/
theorem kvLoop_eq (kvs : List String) (fuel j : Nat) (m : GoMap)
    (hfuel : kvs.length ≤ 2 * j + 2 * fuel) :
    kvLoop kvs fuel (2 * j) m =
      overwriteAll m ((List.range' j (kvs.length / 2 - j)).map
        (fun i => (kvs.getD (2 * i) "", kvs.getD (2 * i + 1) ""))) := by
  induction fuel generalizing j m with
  | zero =>
    have hz : kvs.length / 2 - j = 0 := by omega
    simp [kvLoop, hz, overwriteAll]
  | succ fuel ih =>
    by_cases h1 : 2 * j < kvs.length
    · have hrec := ih (j + 1)
      by_cases h2 : 2 * j + 1 < kvs.length
      · have hlen : kvs.length / 2 - j = (kvs.length / 2 - (j + 1)) + 1 := by omega
        rw [hlen, List.range'_succ]
        simp only [kvLoop, if_pos h1, if_pos h2, List.map_cons, overwriteAll, List.foldl_cons]
        have := hrec (GoMap.put (kvs.getD (2 * j) "") (kvs.getD (2 * j + 1) "") m) (by omega)
        simpa [overwriteAll, Nat.mul_add] using this
      · have hz : kvs.length / 2 - j = 0 := by omega
        have hz2 : kvs.length / 2 - (j + 1) = 0 := by omega
        simp only [kvLoop, if_pos h1, if_neg h2, hz, List.range'_zero, List.map_nil]
        have := hrec m (by omega)
        simpa [overwriteAll, Nat.mul_add, hz2] using this
    · have hz : kvs.length / 2 - j = 0 := by omega
      simp [kvLoop, h1, hz, overwriteAll]

/-- With any fuel of at least half the number of arguments, the loop of `KV` ends by its
own condition and overwrites the map with the pairs of the argument list. -/
theorem kvLoop_zero (kvs : List String) (fuel : Nat) (m : GoMap)
    (hfuel : kvs.length ≤ 2 * fuel) :
    kvLoop kvs fuel 0 m = overwriteAll m (kvPairs kvs) := by
  have := kvLoop_eq kvs fuel 0 m (by omega)
  simpa [kvPairs, List.range_eq_range'] using this

/-- An unpaired last argument contributes no pair. -/
theorem kvPairs_dropLast (kvs : List String) (hodd : kvs.length % 2 = 1) :
    kvPairs kvs.dropLast = kvPairs kvs := by
  unfold kvPairs
  have hlen : kvs.dropLast.length / 2 = kvs.length / 2 := by
    rw [List.length_dropLast]; omega
  rw [hlen]
  apply List.map_congr_left
  intro i hi
  have hi2 : i < kvs.length / 2 := List.mem_range.mp hi
  have e1 : kvs.dropLast.getD (2 * i) "" = kvs.getD (2 * i) "" := by
    simp only [List.getD_eq_getElem?_getD, List.getElem?_dropLast]
    rw [if_pos (by omega)]
  have e2 : kvs.dropLast.getD (2 * i + 1) "" = kvs.getD (2 * i + 1) "" := by
    simp only [List.getD_eq_getElem?_getD, List.getElem?_dropLast]
    rw [if_pos (by omega)]
  rw [e1, e2]

/-- The metadata left by `KV`. -/
theorem KV_cells (h : Heap) (e : Ptr) (kvs : List String) :
    ((KV h e kvs).1.cells e).Metadata =
      some (overwriteAll ((h.cells e).Metadata.getD []) (kvPairs kvs)) := by
  simp only [KV, Heap.write_cells_same]
  rw [kvLoop_zero kvs kvs.length _ (by omega)]
  cases (h.cells e).Metadata <;> rfl

/-- C6: after `e.KV(kvs...)` the metadata of `e` is its previous metadata (empty when it
was nil) overwritten in argument order with the pairs `kvs[2i] -> kvs[2i+1]`,
`2i+1 < len(kvs)`; the loop ends by its own condition (more fuel changes nothing); for
an odd number of arguments the result is that of `KV` without the last argument; and
`KV("a", "1", "b")` on a value without metadata leaves exactly `a -> 1`. -/
theorem KV_metadata (h : Heap) (e : Ptr) (kvs : List String) :
    ((KV h e kvs).1.cells e).Metadata =
      some (overwriteAll ((h.cells e).Metadata.getD []) (kvPairs kvs)) ∧
    (∀ fuel m, kvs.length ≤ fuel → kvLoop kvs fuel 0 m = kvLoop kvs kvs.length 0 m) ∧
    (kvs.length % 2 = 1 →
      ((KV h e kvs).1.cells e).Metadata = ((KV h e kvs.dropLast).1.cells e).Metadata) ∧
    ((h.cells e).Metadata = none →
      ((KV h e ["a", "1", "b"]).1.cells e).Metadata = some [("a", "1")]) := by
  refine ⟨KV_cells h e kvs, ?_, ?_, ?_⟩
  · intro fuel m hfuel
    rw [kvLoop_zero kvs fuel m (by omega), kvLoop_zero kvs kvs.length m (by omega)]
  · intro hodd
    rw [KV_cells, KV_cells, kvPairs_dropLast kvs hodd]
  · intro hnil
    rw [KV_cells, hnil]
    rfl

/-- Witness of `KV_metadata`: on the catalog entry for conflicts carrying a trace
identifier, `KV("zone", "eu", "a", "1", "zone", "us", "b")` adds `a`, sets `zone` to its
last value and adds nothing for `b`. -/
theorem KV_metadata_witness :
    ((KV (Heap.const { ErrOperationFailed with Metadata := some [("trace", "t1")] }) 0
        ["zone", "eu", "a", "1", "zone", "us", "b"]).1.cells 0).Metadata
      = some [("a", "1"), ("trace", "t1"), ("zone", "us")] :=
  ((KV_metadata (Heap.const { ErrOperationFailed with Metadata := some [("trace", "t1")] }) 0
    ["zone", "eu", "a", "1", "zone", "us", "b"]).1).trans (by decide)

/-! ## C7: rendering as a gRPC status -/

/-- A conditional between two non-zero numbers is not zero. -/
theorem ite_ne_zero_of (c : Prop) [Decidable c] (a b : Nat) (ha : a ≠ 0) (hb : b ≠ 0) :
    (if c then a else b) ≠ 0 := by
  split <;> assumption

/-- The kratos table maps exactly the code 200 to `OK`. -/
theorem kratos_ToGRPCCode_eq_OK_iff (code : Int) :
    kratos.ToGRPCCode code = codesOK ↔ code = 200 := by
  constructor
  · intro hc
    by_contra hne
    have hnz : kratosToGRPCCode code ≠ 0 := by
      unfold kratosToGRPCCode
      rw [if_neg hne]
      repeat (first | decide | apply ite_ne_zero_of)
    exact hnz hc
  · intro hc
    subst hc
    rfl

/-- C7 (amended): for every Error Value whose code is not mapped to the gRPC code `OK`
(with the kratos table: every code other than 200, codes outside the table included)
and whose reason and metadata keys and values are valid UTF-8, whatever its message,
`GRPCStatus` returns a status whose description is the message and which carries
exactly one detail record, holding the reason and the metadata. -/
theorem GRPCStatus_defined (T : CodeTable) (e : ErrorX)
    (hok : T.ToGRPCCode e.Code ≠ codesOK)
    (hreason : validUTF8 e.Reason = true)
    (hvalid : validMetadata e.Metadata = true) :
    ∃ s, GRPCStatus T e = some s ∧ s.code = T.ToGRPCCode e.Code ∧ s.message = e.Message ∧
      s.details = [Detail.errorInfo e.Reason (e.Metadata.getD [])] :=
  ⟨_, GRPCStatus_of_ne_OK T e hok hreason hvalid, rfl, rfl, rfl⟩

/-- Witness of `GRPCStatus_defined`: a code outside the kratos table, and a message that
is not valid UTF-8. -/
theorem GRPCStatus_defined_witness :
    ∃ s, GRPCStatus kratos { Code := 418, Reason := "Teapot", Message := "short\xff"
                             Metadata := none } = some s ∧
      s.code = 2 ∧ s.message = "short\xff" ∧
      s.details = [Detail.errorInfo "Teapot" []] :=
  GRPCStatus_defined kratos
    { Code := 418, Reason := "Teapot", Message := "short\xff", Metadata := none }
    (fun hc => by simp [kratos_ToGRPCCode_eq_OK_iff] at hc) (by decide) (by decide)

/-- C7 as stated fails: with the kratos table the catalog entry `OK` (code 200) has no
status, `GRPCStatus` returns the nil pointer; so does an Error Value with code 404
whose reason holds the byte `0xff`, or whose metadata holds the value `0xc3 0x28`. -/
theorem GRPCStatus_counterexample :
    GRPCStatus kratos OK = none ∧
    GRPCStatus kratos { Code := 404, Reason := "bad\xff", Message := "m", Metadata := none }
      = none ∧
    GRPCStatus kratos
      { Code := 404, Reason := "NotFound", Message := "m"
        Metadata := some [("a", "\xc3\x28")] } = none := by
  decide

/-! ## C8: keys of the metadata -/

/-- Reading after an assignment: the assigned key has the new value, every other key the
value it had. -/
theorem GoMap.get?_put (m : GoMap) (k v k2 : String) :
    GoMap.get? (GoMap.put k v m) k2 = if k2 = k then some v else GoMap.get? m k2 := by
  induction m with
  | nil => simp [GoMap.put, GoMap.get?]
  | cons kv rest ih =>
    obtain ⟨k1, v1⟩ := kv
    by_cases h1 : k = k1
    · subst h1
      by_cases h3 : k2 = k <;> simp [GoMap.put, GoMap.get?, h3]
    · by_cases h2 : keyLt k k1
      · simp [GoMap.put, GoMap.get?, h1, h2]
      · by_cases h3 : k2 = k1
        · have h4 : ¬ k1 = k := fun hc => h1 hc.symm
          simp [GoMap.put, GoMap.get?, h1, h2, h3, h4]
        · simp [GoMap.put, GoMap.get?, h1, h2, h3, ih]

/-- Every entry of the map after an assignment is the assigned entry or an entry the map
had before. -/
theorem GoMap.mem_put (m : GoMap) (k v : String) (b : String × String)
    (hb : b ∈ GoMap.put k v m) : b = (k, v) ∨ b ∈ m := by
  induction m with
  | nil => simpa [GoMap.put] using hb
  | cons kv rest ih =>
    obtain ⟨k1, v1⟩ := kv
    by_cases h1 : k = k1
    · simp only [GoMap.put, if_pos h1, List.mem_cons] at hb
      rcases hb with hb | hb
      · exact Or.inl hb
      · exact Or.inr (List.mem_cons_of_mem _ hb)
    · by_cases h2 : keyLt k k1
      · simp only [GoMap.put, if_neg h1, if_pos h2, List.mem_cons] at hb
        rcases hb with hb | hb | hb
        · exact Or.inl hb
        · exact Or.inr (hb ▸ List.mem_cons_self _ _)
        · exact Or.inr (List.mem_cons_of_mem _ hb)
      · simp only [GoMap.put, if_neg h1, if_neg h2, List.mem_cons] at hb
        rcases hb with hb | hb
        · exact Or.inr (hb ▸ List.mem_cons_self _ _)
        · rcases ih hb with hb2 | hb2
          · exact Or.inl hb2
          · exact Or.inr (List.mem_cons_of_mem _ hb2)

/-- Assignment keeps the keys of a map strictly ascending. -/
theorem GoMap.put_WF (m : GoMap) (k v : String) (hm : GoMap.WF m) :
    GoMap.WF (GoMap.put k v m) := by
  induction m with
  | nil => simp [GoMap.put, GoMap.WF]
  | cons kv rest ih =>
    obtain ⟨k1, v1⟩ := kv
    unfold GoMap.WF at hm ih ⊢
    rw [List.pairwise_cons] at hm
    obtain ⟨hhead, hrest⟩ := hm
    by_cases h1 : k = k1
    · subst h1
      simp only [GoMap.put, if_true]
      exact List.pairwise_cons.mpr ⟨hhead, hrest⟩
    · by_cases h2 : keyLt k k1
      · simp only [GoMap.put, if_neg h1, if_pos h2]
        refine List.pairwise_cons.mpr ⟨?_, List.pairwise_cons.mpr ⟨hhead, hrest⟩⟩
        intro b hb
        rcases List.mem_cons.mp hb with hb | hb
        · subst hb
          exact h2
        · exact lt_trans (show k.data < k1.data from h2) (hhead b hb)
      · simp only [GoMap.put, if_neg h1, if_neg h2]
        refine List.pairwise_cons.mpr ⟨?_, ih hrest⟩
        intro b hb
        rcases GoMap.mem_put rest k v b hb with hb | hb
        · subst hb
          have hne : k1.data ≠ k.data := fun hc => h1 (String.ext hc.symm)
          exact lt_of_le_of_ne (not_lt.mp h2) hne
        · exact hhead b hb

/-- Assignment keeps the keys of the map. -/
theorem GoMap.mem_keys_put (m : GoMap) (k v k2 : String) (hk : k2 ∈ GoMap.keys m) :
    k2 ∈ GoMap.keys (GoMap.put k v m) := by
  induction m with
  | nil => simp [GoMap.keys] at hk
  | cons kv rest ih =>
    obtain ⟨k1, v1⟩ := kv
    simp only [GoMap.keys, List.map_cons, List.mem_cons] at hk
    by_cases h1 : k = k1
    · subst h1
      simpa [GoMap.put, GoMap.keys] using hk
    · by_cases h2 : keyLt k k1
      · simp only [GoMap.put, if_neg h1, if_pos h2, GoMap.keys, List.map_cons, List.mem_cons]
        exact Or.inr hk
      · simp only [GoMap.put, if_neg h1, if_neg h2, GoMap.keys, List.map_cons, List.mem_cons]
        rcases hk with hk | hk
        · exact Or.inl hk
        · exact Or.inr (ih hk)

/-- Overwriting with a list of pairs keeps the keys of the map. -/
theorem mem_keys_overwriteAll (ps : List (String × String)) (m : GoMap) (k : String)
    (hk : k ∈ GoMap.keys m) : k ∈ GoMap.keys (overwriteAll m ps) := by
  induction ps generalizing m with
  | nil => simpa [overwriteAll] using hk
  | cons kv ps ih =>
    simp only [overwriteAll, List.foldl_cons]
    exact ih _ (GoMap.mem_keys_put m kv.1 kv.2 k hk)

/-- The method `KV` keeps the keys of the metadata. -/
theorem KV_keeps_keys (h : Heap) (e : Ptr) (kvs : List String) (k : String)
    (hk : k ∈ metadataKeys (h.cells e).Metadata) :
    k ∈ metadataKeys ((KV h e kvs).1.cells e).Metadata := by
  rw [KV_cells]
  exact mem_keys_overwriteAll _ _ k hk

/-- C8 (amended): `WithMessage`, `KV` and `WithRequestID` only add or overwrite: every
key present in the metadata of `e` before the call is present afterwards.
`WithMetadata` replaces the metadata by the given map, whatever the metadata held
before: afterwards the metadata is exactly that map. -/
theorem decoration_keeps_keys (h : Heap) (e : Ptr) :
    (∀ k, k ∈ metadataKeys (h.cells e).Metadata →
      (∀ format args,
        k ∈ metadataKeys ((decorate h e (.withMessage format args)).1.cells e).Metadata) ∧
      (∀ kvs, k ∈ metadataKeys ((decorate h e (.kv kvs)).1.cells e).Metadata) ∧
      (∀ requestID,
        k ∈ metadataKeys ((decorate h e (.withRequestID requestID)).1.cells e).Metadata)) ∧
    (∀ md, ((decorate h e (.withMetadata md)).1.cells e).Metadata = md) := by
  refine ⟨fun k hk => ⟨?_, ?_, ?_⟩, ?_⟩
  · intro format args
    simpa [decorate, WithMessage, Heap.write] using hk
  · intro kvs
    exact KV_keeps_keys h e kvs k hk
  · intro requestID
    exact KV_keeps_keys h e _ k hk
  · intro md
    simp [decorate, WithMetadata, Heap.write]

/-- Witness of `decoration_keeps_keys`: the key `trace` survives `WithRequestID`, and
`WithMetadata` on a value without metadata leaves exactly the given map. -/
theorem decoration_keeps_keys_witness :
    "trace" ∈ metadataKeys
      ((decorate (Heap.const { ErrNotFound with Metadata := some [("trace", "t1")] }) 0
        (.withRequestID "req-42")).1.cells 0).Metadata ∧
    ((decorate (Heap.const ErrNotFound) 0 (.withMetadata (some [("b", "2")]))).1.cells 0).Metadata
      = some [("b", "2")] :=
  ⟨((decoration_keeps_keys (Heap.const { ErrNotFound with Metadata := some [("trace", "t1")] })
      0).1 "trace" (by decide)).2.2 "req-42",
    (decoration_keeps_keys (Heap.const ErrNotFound) 0).2 (some [("b", "2")])⟩

/-- C8 as stated fails for `WithMetadata`: the key `a` is present before the call and
absent after it. -/
theorem WithMetadata_counterexample :
    "a" ∈ metadataKeys
      ((Heap.const { ErrNotFound with Metadata := some [("a", "1")] }).cells 0).Metadata ∧
    "a" ∉ metadataKeys
      ((decorate (Heap.const { ErrNotFound with Metadata := some [("a", "1")] }) 0
        (.withMetadata (some [("b", "2")]))).1.cells 0).Metadata := by
  decide

/-! ## C9: decoration keeps the identity -/

/-- No decoration call assigns a code or a reason. -/
theorem decorate_agree (h : Heap) (e : Ptr) (d : Decoration) (q : Ptr) :
    ((decorate h e d).1.cells q).Code = (h.cells q).Code ∧
      ((decorate h e d).1.cells q).Reason = (h.cells q).Reason := by
  by_cases hq : q = e
  · subst hq
    cases d <;> simp [decorate, WithMessage, WithMetadata, WithRequestID, KV, Heap.write]
  · cases d <;> simp [decorate, WithMessage, WithMetadata, WithRequestID, KV, Heap.write, hq]

/-- C9: each of `WithMessage`, `WithMetadata`, `KV` and `WithRequestID`, with any
arguments, returns its receiver and leaves its code and reason unchanged; matching with
`Is` gives the same answer after the call as before, and the decorated value and a value
with the code and reason it had before the call match each other. -/
theorem decoration_keeps_identity (h : Heap) (e : Ptr) (d : Decoration) :
    (decorate h e d).2 = e ∧
    ((decorate h e d).1.cells e).Code = (h.cells e).Code ∧
    ((decorate h e d).1.cells e).Reason = (h.cells e).Reason ∧
    (∀ target, Is (decorate h e d).1 e target = Is h e target) ∧
    (∀ q, (h.cells q).Code = (h.cells e).Code → (h.cells q).Reason = (h.cells e).Reason →
      Is (decorate h e d).1 e (some (.errorx q)) = some true ∧
      Is (decorate h e d).1 q (some (.errorx e)) = some true) := by
  refine ⟨?_, (decorate_agree h e d e).1, (decorate_agree h e d e).2, ?_, ?_⟩
  · cases d <;> rfl
  · intro target
    exact Is_congr h _ e target (decorate_agree h e d)
  · intro q hc hr
    rw [Is_congr h _ e _ (decorate_agree h e d), Is_congr h _ q _ (decorate_agree h e d)]
    simp [Is, errorsAs, hc, hr]

/-- Witness of `decoration_keeps_identity`: a not-found error decorated with a request
identifier still matches the catalog entry at address 1. -/
theorem decoration_keeps_identity_witness :
    Is (decorate (Heap.const ErrNotFound) 0 (.withRequestID "req-42")).1 0
      (some (.errorx 1)) = some true :=
  ((decoration_keeps_identity (Heap.const ErrNotFound) 0 (.withRequestID "req-42")).2.2.2.2
    1 rfl rfl).1

/-! ## C10: `Code` and `Reason` -/

/-- The function `FromError` always returns; on a non-nil error in whose tree
`errors.As` does not find a nil `*ErrorX`, it returns a non-nil pointer. -/
theorem FromError_some (T : CodeTable) (h : Heap) (err : GoError)
    (hnil : errorsAs err ≠ some none) :
    ∃ h2 p, FromError T h (some err) = some (h2, some p) := by
  cases hAs : errorsAs err with
  | some r =>
    cases r with
    | none => exact absurd hAs hnil
    | some p => exact ⟨h, p, by simp only [FromError, hAs]⟩
  | none =>
    have hno := (errorsAs_eq_none_iff err).mp hAs
    obtain ⟨⟨gs, b⟩, hsf⟩ := statusFromError_returns T h err hno
    obtain ⟨text, htext⟩ := Error_returns h err (hno none)
    cases b with
    | false =>
      simp only [FromError, hAs, hsf, htext]
      exact ⟨_, _, rfl⟩
    | true =>
      simp only [FromError, hAs, hsf]
      exact ⟨_, _, rfl⟩

/-- When `errors.As` finds a nil `*ErrorX`, `FromError` returns the nil pointer. -/
theorem FromError_nil_pointer (T : CodeTable) (h : Heap) (err : GoError)
    (hnil : errorsAs err = some none) : FromError T h (some err) = some (h, none) := by
  simp only [FromError, hnil]

/-- The function `FromError` returns on every error, nil or not. -/
theorem FromError_returns (T : CodeTable) (h : Heap) (err : Option GoError) :
    ∃ r, FromError T h err = some r := by
  cases err with
  | none => exact ⟨_, rfl⟩
  | some e =>
    by_cases hnil : errorsAs e = some none
    · exact ⟨_, FromError_nil_pointer T h e hnil⟩
    · obtain ⟨h2, p, hfe⟩ := FromError_some T h e hnil
      exact ⟨_, hfe⟩

/-- C10 (amended): `Code(nil)` is 200, the success code, while `Reason(nil)` is
`InternalError`, the reason of the catalog entry `ErrInternal` and not the empty reason
of the entry `OK`; for every non-nil error in whose tree `errors.As` does not find a nil
`*ErrorX`, `FromError` returns an Error Value and `Code` and `Reason` are its code and
its reason. -/
theorem Code_Reason (T : CodeTable) (h : Heap) :
    Code T h none = some 200 ∧ OK.Code = 200 ∧
    Reason T h none = some "InternalError" ∧ ErrInternal.Reason = "InternalError" ∧
    OK.Reason = "" ∧
    (∀ err : GoError, errorsAs err ≠ some none →
      ∃ h2 p, FromError T h (some err) = some (h2, some p) ∧
        Code T h (some err) = some (h2.cells p).Code ∧
        Reason T h (some err) = some (h2.cells p).Reason) := by
  refine ⟨rfl, rfl, rfl, rfl, rfl, ?_⟩
  intro err hnil
  obtain ⟨h2, p, hfe⟩ := FromError_some T h err hnil
  exact ⟨h2, p, hfe, by simp only [Code, hfe], by simp only [Reason, hfe]⟩

/-- Witness of `Code_Reason`: a gRPC status error `PermissionDenied` without details has
code 403 and reason `InternalError`. -/
theorem Code_Reason_witness :
    Code kratos (Heap.const OK) (some (.status { code := 7, message := "denied", details := [] }))
      = some 403 ∧
    Reason kratos (Heap.const OK)
      (some (.status { code := 7, message := "denied", details := [] })) = some "InternalError" := by
  obtain ⟨h2, p, hfe, hc, hr⟩ := (Code_Reason kratos (Heap.const OK)).2.2.2.2.2
    (.status { code := 7, message := "denied", details := [] }) (by simp [errorsAs])
  cases hfe
  exact ⟨hc, hr⟩

/-- C10 as stated fails: for the non-nil error holding a nil `*ErrorX`, alone or
wrapped, `FromError` returns the nil pointer and neither `Code` nor `Reason` returns. -/
theorem Code_Reason_counterexample :
    FromError kratos (Heap.const OK) (some .errorxNil) = some (Heap.const OK, none) ∧
    Code kratos (Heap.const OK) (some .errorxNil) = none ∧
    Reason kratos (Heap.const OK) (some .errorxNil) = none ∧
    Code kratos (Heap.const OK) (some (.wrap "store: <nil>" .errorxNil)) = none ∧
    Reason kratos (Heap.const OK) (some (.wrap "store: <nil>" .errorxNil)) = none :=
  ⟨rfl, rfl, rfl, rfl, rfl⟩

/-! ## C11: rendering and request identifier -/

/-- The characters of a one-character string. -/
theorem toString_data_char (c : Char) : c.toString.data = [c] := rfl

/-- Under `%v` a map prints as the specification renders it. -/
theorem fmtMap_v (md : Option GoMap) : fmtMap 'v' md = renderMetadata md := by
  simp [fmtMap, renderMetadata, fmtString]

/-- The text of `Error`, whatever the fields hold (the fields are operands, they are
never read as format). -/
theorem Error_eq (e : ErrorX) :
    e.Error = "error: code = " ++ toString e.Code ++ " reason = " ++ e.Reason ++
      " message = " ++ e.Message ++ " metadata = " ++ renderMetadata e.Metadata := by
  rw [← fmtMap_v]
  apply String.ext
  simp [ErrorX.Error, Sprintf, sprintfAux, fmtArg, fmtInt, fmtString, String.data_append,
    toString_data_char]

/-- C11: for every Error Value `e`, `e.Error()` is
`error: code = <Code in decimal> reason = <Reason> message = <Message> metadata = <Metadata>`
with the metadata rendered as `map[k1:v1 k2:v2 ...]` (`map[]` when nil or empty), and
`e.WithRequestID(id)` is `e.KV("X-Request-ID", id)`.  On any heap,
`New(409, "OperationFailed", "stock %d insufficient", 3).WithRequestID("req-42")` returns
the new value, with message `stock 3 insufficient`, metadata exactly
`X-Request-ID -> req-42`, and the rendering of the specification. -/
theorem Error_render (h : Heap) (e : Ptr) (requestID : String) :
    ((h.cells e).Error =
      "error: code = " ++ toString (h.cells e).Code ++ " reason = " ++ (h.cells e).Reason ++
        " message = " ++ (h.cells e).Message ++ " metadata = " ++
        renderMetadata (h.cells e).Metadata) ∧
    renderMetadata none = "map[]" ∧ renderMetadata (some []) = "map[]" ∧
    (∀ k1 v1 k2 v2 : String,
      renderMetadata (some [(k1, v1), (k2, v2)]) =
        "map[" ++ (k1 ++ ":" ++ v1 ++ " " ++ (k2 ++ ":" ++ v2)) ++ "]") ∧
    WithRequestID h e requestID = KV h e ["X-Request-ID", requestID] ∧
    (WithRequestID (New h 409 "OperationFailed" "stock %d insufficient" [.int 3]).1
        (New h 409 "OperationFailed" "stock %d insufficient" [.int 3]).2 "req-42").2 =
      (New h 409 "OperationFailed" "stock %d insufficient" [.int 3]).2 ∧
    (WithRequestID (New h 409 "OperationFailed" "stock %d insufficient" [.int 3]).1
        (New h 409 "OperationFailed" "stock %d insufficient" [.int 3]).2 "req-42").1.cells
        (New h 409 "OperationFailed" "stock %d insufficient" [.int 3]).2 =
      { Code := 409, Reason := "OperationFailed", Message := "stock 3 insufficient"
        Metadata := some [("X-Request-ID", "req-42")] } ∧
    ((WithRequestID (New h 409 "OperationFailed" "stock %d insufficient" [.int 3]).1
        (New h 409 "OperationFailed" "stock %d insufficient" [.int 3]).2 "req-42").1.cells
        (New h 409 "OperationFailed" "stock %d insufficient" [.int 3]).2).Error =
      "error: code = 409 reason = OperationFailed message = stock 3 insufficient metadata = map[X-Request-ID:req-42]" := by
  have hcell :
      (WithRequestID (New h 409 "OperationFailed" "stock %d insufficient" [.int 3]).1
          (New h 409 "OperationFailed" "stock %d insufficient" [.int 3]).2 "req-42").1.cells
          (New h 409 "OperationFailed" "stock %d insufficient" [.int 3]).2 =
        { Code := 409, Reason := "OperationFailed", Message := "stock 3 insufficient"
          Metadata := some [("X-Request-ID", "req-42")] } := by
    simp only [WithRequestID, KV, New, Heap.alloc, Heap.write, if_true]
    rfl
  refine ⟨Error_eq _, rfl, rfl, ?_, rfl, rfl, hcell, ?_⟩
  · intro k1 v1 k2 v2
    rfl
  · rw [hcell]
    decide

/-- Witness of `Error_render`: the rendering of a not-found error with a negative code
and two metadata entries. -/
theorem Error_render_witness :
    ErrorX.Error { Code := -1, Reason := "NotFound", Message := "100% gone: %s"
                   Metadata := some [("X-Request-ID", "req-42"), ("zone", "eu")] } =
      "error: code = -1 reason = NotFound message = 100% gone: %s metadata = map[X-Request-ID:req-42 zone:eu]" :=
  ((Error_render (Heap.const { Code := -1, Reason := "NotFound", Message := "100% gone: %s"
                               Metadata := some [("X-Request-ID", "req-42"), ("zone", "eu")] })
      0 "").1).trans (by decide)

end Errorsx
